import Mathlib

/-!
Verification of the zone-analysis core of the repository: a shallow
embedding of `zone_analyzer.py` (extrema detection via scipy
`argrelextrema` in its default clip mode, greedy level clustering, zone
validation and tagging, alert classification) and of the caller-level
alert bookkeeping in `app.py` (`get_alert_status` with its sent-alert
set and broken-reset policy).  Prices are modelled as exact rationals;
the sent-alert dictionary is modelled as an insertion-ordered list of
keys; the bounded alert-history deque (`maxlen=50`) is modelled by a
`take 50` after the prepend.
-/

/-- Configured zone width percentage (`config.py`: `ZONE_WIDTH_PERCENT = 0.5`). -/
def ZONE_WIDTH_PERCENT : ℚ := 0.5

/-- Configured approach distance percentage (`config.py`: `APPROACH_DISTANCE_PERCENT = 2.0`). -/
def APPROACH_DISTANCE_PERCENT : ℚ := 2.0

/-- One OHLCV candle; `timestamp` is a millisecond epoch. -/
structure Candle where
  timestamp : ℤ
  opn : ℚ
  high : ℚ
  low : ℚ
  close : ℚ
  volume : ℚ
deriving DecidableEq

/-- Placeholder candle used only as the default of out-of-range list reads. -/
def dummyCandle : Candle := ⟨0, 0, 0, 0, 0, 0⟩

/-- A clustered zone as produced by `ZoneAnalyzer._cluster_levels`. -/
structure ClusterZone where
  price : ℚ
  touches : ℕ
  min_price : ℚ
  max_price : ℚ
deriving DecidableEq

/-- A zone tagged with its semantic type and timeframe, as produced by
`ZoneAnalyzer.find_support_resistance_zones`. -/
structure TaggedZone extends ClusterZone where
  type : String
  timeframe : String
deriving DecidableEq

/-- Python `min` of a list of prices (`0` only on the empty list, which the
code never passes). -/
def listMin : List ℚ → ℚ
  | [] => 0
  | x :: xs => xs.foldl min x

/-- Python `max` of a list of prices. -/
def listMax : List ℚ → ℚ
  | [] => 0
  | x :: xs => xs.foldl max x

/-- `np.mean` of a list of prices. -/
def listMean (l : List ℚ) : ℚ := l.sum / l.length

/-- Round a rational to the nearest integer, ties to even (the rounding of
Python fixed-point float formatting). -/
def roundHalfEven (q : ℚ) : ℤ :=
  let f : ℤ := q.num.fdiv (q.den : ℤ)
  let r : ℤ := q.num - f * (q.den : ℤ)
  if 2 * r < (q.den : ℤ) then f
  else if (q.den : ℤ) < 2 * r then f + 1
  else if f % 2 = 0 then f else f + 1

/-- Decimal digits of the fractional part, left-padded to 8 places. -/
def pad8 (n : ℕ) : String :=
  let s := toString n
  String.mk (List.replicate (8 - s.length) '0') ++ s

/-- Fixed-point rendering of a nonnegative scaled value (`m` is the price
times `10 ^ 8`, already rounded). -/
def formatFixed8Pos (m : ℕ) : String :=
  toString (m / 100000000) ++ "." ++ pad8 (m % 100000000)

/-- Python `f"{q:.8f}"` on an exact rational. -/
def formatFixed8 (q : ℚ) : String :=
  let n := roundHalfEven (q * 100000000)
  if n < 0 then "-" ++ formatFixed8Pos n.natAbs else formatFixed8Pos n.toNat

/-- The zone key `f"{timeframe}_{ztype}_{price:.8f}"`. -/
def zoneKey (timeframe ztype : String) (price : ℚ) : String :=
  timeframe ++ "_" ++ ztype ++ "_" ++ formatFixed8 price

/-- Python `str.startswith`. -/
def startswith (s pre : String) : Bool :=
  s.data.take pre.data.length == pre.data

/-- Descending-by-`touches` comparison used to rank zones
(`sorted(zones, key=lambda x: x['touches'], reverse=True)`). -/
def touchesGE (a b : ClusterZone) : Prop := b.touches ≤ a.touches

instance : DecidableRel touchesGE := fun a b =>
  inferInstanceAs (Decidable (b.touches ≤ a.touches))

instance : IsTotal ClusterZone touchesGE := ⟨fun a b => Nat.le_total b.touches a.touches⟩

instance : IsTrans ClusterZone touchesGE := ⟨fun _ _ _ h1 h2 => le_trans h2 h1⟩

/-- Descending-by-timestamp comparison used for the recent-extrema lists. -/
def tsGE (a b : ℤ × ℚ) : Prop := b.1 ≤ a.1

instance : DecidableRel tsGE := fun a b => inferInstanceAs (Decidable (b.1 ≤ a.1))

/-- Ascending comparison on prices (Python `sorted(levels)`). -/
def ratLE (a b : ℚ) : Prop := a ≤ b

instance : DecidableRel ratLE := fun a b => inferInstanceAs (Decidable (a ≤ b))

instance : IsTotal ℚ ratLE := ⟨fun a b => le_total a b⟩

instance : IsTrans ℚ ratLE := ⟨fun _ _ _ h1 h2 => le_trans h1 h2⟩

instance : IsAntisymm ℚ ratLE := ⟨fun _ _ h1 h2 => le_antisymm h1 h2⟩

/-- `scipy.signal.argrelextrema(data, comparator, order=order)` in its default
`clip` mode: index `i` is reported when `comparator(data[i], data[clip(i ± s)])`
holds for every shift `1 ≤ s ≤ order`, where out-of-range neighbor indices are
clipped to the ends of the series.  (scipy rejects `order < 1`; the theorems
below therefore assume `1 ≤ order`.) -/
def relExtremaIdx (cmp : ℚ → ℚ → Bool) (data : List ℚ) (order : ℕ) : List ℕ :=
  (List.range data.length).filter fun i =>
    (List.range order).all fun s =>
      cmp (data.getD i 0) (data.getD (min (i + (s + 1)) (data.length - 1)) 0) &&
      cmp (data.getD i 0) (data.getD (i - (s + 1)) 0)

/-- Peak indices of `ZoneAnalyzer._find_peaks_and_troughs`
(`argrelextrema(high, np.greater, order=order)`). -/
def peaksIdx (df : List Candle) (order : ℕ) : List ℕ :=
  relExtremaIdx (fun a b => decide (b < a)) (df.map Candle.high) order

/-- Trough indices of `ZoneAnalyzer._find_peaks_and_troughs`
(`argrelextrema(low, np.less, order=order)`). -/
def troughsIdx (df : List Candle) (order : ℕ) : List ℕ :=
  relExtremaIdx (fun a b => decide (a < b)) (df.map Candle.low) order

/-- `ZoneAnalyzer._find_peaks_and_troughs`: the `(timestamp, price)` pairs at
the detected extremum indices. -/
def find_peaks_and_troughs (df : List Candle) (order : ℕ) :
    List (ℤ × ℚ) × List (ℤ × ℚ) :=
  ((peaksIdx df order).map fun i =>
      ((df.getD i dummyCandle).timestamp, (df.getD i dummyCandle).high),
   (troughsIdx df order).map fun i =>
      ((df.getD i dummyCandle).timestamp, (df.getD i dummyCandle).low))

/-- Close the current cluster into a zone
(`{'price': np.mean(current), 'touches': len(current),
'min_price': min(current), 'max_price': max(current)}`). -/
def mkZone (current : List ℚ) : ClusterZone :=
  { price := listMean current
    touches := current.length
    min_price := listMin current
    max_price := listMax current }

/-- One iteration of the clustering loop of `ZoneAnalyzer._cluster_levels`. -/
def clusterStep (tolerance_percent : ℚ) (acc : List ClusterZone × List ℚ)
    (level : ℚ) : List ClusterZone × List ℚ :=
  let center := listMean acc.2
  if |level - center| / center ≤ tolerance_percent / 100 then
    (acc.1, acc.2 ++ [level])
  else
    (acc.1 ++ [mkZone acc.2], [level])

/-- `ZoneAnalyzer._cluster_levels`: sort the levels ascending, run the greedy
running-mean pass, close the final cluster, rank descending by `touches`
(stably) and keep at most 5 zones. -/
def cluster_levels (levels : List ℚ) (tolerance_percent : ℚ) : List ClusterZone :=
  match List.insertionSort ratLE levels with
  | [] => []
  | l0 :: rest =>
    let p := rest.foldl (clusterStep tolerance_percent) ([], [l0])
    (List.insertionSort touchesGE (p.1 ++ [mkZone p.2])).take 5

/-- The result record of `ZoneAnalyzer.find_support_resistance_zones`. -/
structure SRZones where
  valid_support : List TaggedZone
  valid_resistance : List TaggedZone
  peaks : List (ℤ × ℚ)
  troughs : List (ℤ × ℚ)
  recent_peaks : List (ℤ × ℚ)
  recent_troughs : List (ℤ × ℚ)
deriving DecidableEq

/-- Tag a clustered zone with its semantic type and timeframe
(`z = zone.copy(); z['type'] = ...; z['timeframe'] = ...`). -/
def tagZone (z : ClusterZone) (ty tf : String) : TaggedZone :=
  { toClusterZone := z, type := ty, timeframe := tf }

/-- `df['close'].iloc[-1]` (the code only calls this on nonempty data). -/
def lastClose (df : List Candle) : ℚ := ((df.getLast?).map Candle.close).getD 0

/-- `ZoneAnalyzer.find_support_resistance_zones`. -/
def find_support_resistance_zones (df : List Candle) (timeframe : String) : SRZones :=
  let pt := find_peaks_and_troughs df 5
  let resistance_levels := pt.1.map Prod.snd
  let support_levels := pt.2.map Prod.snd
  let resistance_zones := cluster_levels resistance_levels ZONE_WIDTH_PERCENT
  let support_zones := cluster_levels support_levels ZONE_WIDTH_PERCENT
  let recent_peaks := (List.insertionSort tsGE pt.1).take 2
  let recent_troughs := (List.insertionSort tsGE pt.2).take 2
  let current_price := lastClose df
  let valid_support := (support_zones.filter fun z => current_price ≥ z.min_price).map
    fun z => tagZone z "support" timeframe
  let valid_resistance := (resistance_zones.filter fun z => current_price ≤ z.max_price).map
    fun z => tagZone z "resistance" timeframe
  ⟨valid_support, valid_resistance, pt.1, pt.2, recent_peaks, recent_troughs⟩

/-- `ZoneAnalyzer.check_price_alert`. -/
def check_price_alert (current_price : ℚ) (zone : TaggedZone) (timeframe : String) :
    Option String × Option String :=
  let price := zone.price
  let ztype := zone.type
  let width := ZONE_WIDTH_PERCENT / 100
  let approach := APPROACH_DISTANCE_PERCENT / 100
  let lower := price * (1 - width / 2)
  let upper := price * (1 + width / 2)
  if ztype = "support" ∧ current_price < lower then
    (some "broken", some (zoneKey timeframe ztype price))
  else if ztype = "resistance" ∧ upper < current_price then
    (some "broken", some (zoneKey timeframe ztype price))
  else if lower ≤ current_price ∧ current_price ≤ upper then
    (some "in_zone", some (zoneKey timeframe ztype price))
  else if |current_price - price| / price ≤ approach then
    (some "approaching", some (zoneKey timeframe ztype price))
  else (none, none)

/-- Modelled from the spec: the §4.4 `AlertClassifier` decision list, written
from the spec's own rule order (1. support pierced below the band, 2.
resistance pierced above the band, 3. inside the band, 4. within approach
distance of the centroid, 5. no alert), for comparison with the code. -/
def classifySpec (current_price price : ℚ) (ztype timeframe : String) :
    Option String × Option String :=
  let width := ZONE_WIDTH_PERCENT / 100
  let approach := APPROACH_DISTANCE_PERCENT / 100
  let lower := price * (1 - width / 2)
  let upper := price * (1 + width / 2)
  let key := timeframe ++ "_" ++ ztype ++ "_" ++ formatFixed8 price
  if ztype = "support" ∧ current_price < lower then (some "broken", some key)
  else if ztype = "resistance" ∧ upper < current_price then (some "broken", some key)
  else if lower ≤ current_price ∧ current_price ≤ upper then (some "in_zone", some key)
  else if |current_price - price| / price ≤ approach then (some "approaching", some key)
  else (none, none)

/-- One alert record as appended to `st.session_state.alert_history`
(without the wall-clock timestamp, which the core logic never reads). -/
structure AlertRecord where
  ticker : String
  timeframe : String
  alert_type : String
  zone_type : String
  zone_price : ℚ
  current_price : ℚ
  zone_touches : ℕ
deriving DecidableEq

/-- Build the alert record of `get_alert_status`. -/
def mkAlertRecord (ticker timeframe alert_type : String) (zone : TaggedZone)
    (current_price : ℚ) : AlertRecord :=
  ⟨ticker, timeframe, alert_type, zone.type, zone.price, current_price, zone.touches⟩

/-- The caller-level mutable state of `app.py`: the sent-alert key set (an
insertion-ordered dictionary of keys) and the alert history deque. -/
structure AlertsState where
  sent_alerts : List String
  alert_history : List AlertRecord
deriving DecidableEq

/-- `get_alert_status` from `app.py`: classify, and if an alert fired and its
full key is new, record it; a newly recorded `broken` alert then clears every
sent key of that ticker. -/
def get_alert_status (st : AlertsState) (current_price : ℚ) (zone : TaggedZone)
    (timeframe ticker : String) : Option String × AlertsState :=
  match check_price_alert current_price zone timeframe with
  | (some alert_type, some zone_key) =>
    let full_key := ticker ++ "_" ++ zone_key
    if full_key ∈ st.sent_alerts then (some alert_type, st)
    else
      let hist := (mkAlertRecord ticker timeframe alert_type zone current_price ::
        st.alert_history).take 50
      let sent := st.sent_alerts ++ [full_key]
      if alert_type = "broken" then
        (some alert_type, ⟨sent.filter fun k => !(startswith k (ticker ++ "_")), hist⟩)
      else (some alert_type, ⟨sent, hist⟩)
  | (a, _) => (a, st)

attribute [local semireducible] Rat.mul Rat.add Rat.sub Rat.inv Rat.ofScientific

/-! ### Basic facts about `listMin`, `listMax` and `listMean` -/

lemma foldl_min_mem (xs : List ℚ) (x : ℚ) : xs.foldl min x ∈ x :: xs := by
  induction xs generalizing x with
  | nil => simp
  | cons a as ih =>
    rw [List.foldl_cons]
    rcases List.mem_cons.mp (ih (min x a)) with h1 | h1
    · rcases min_choice x a with h2 | h2 <;> rw [h1, h2] <;> simp
    · simp [h1]

lemma foldl_min_le (xs : List ℚ) (x : ℚ) : ∀ y ∈ x :: xs, xs.foldl min x ≤ y := by
  induction xs generalizing x with
  | nil =>
    intro y hy
    rw [List.mem_singleton] at hy
    rw [hy, List.foldl_nil]
  | cons a as ih =>
    intro y hy
    rw [List.foldl_cons]
    have hbase := ih (min x a) (min x a) (List.mem_cons_self _ _)
    rcases List.mem_cons.mp hy with h1 | h1
    · rw [h1]
      exact le_trans hbase (min_le_left _ _)
    rcases List.mem_cons.mp h1 with h2 | h2
    · rw [h2]
      exact le_trans hbase (min_le_right _ _)
    · exact ih (min x a) y (List.mem_cons_of_mem _ h2)

lemma foldl_max_mem (xs : List ℚ) (x : ℚ) : xs.foldl max x ∈ x :: xs := by
  induction xs generalizing x with
  | nil => simp
  | cons a as ih =>
    rw [List.foldl_cons]
    rcases List.mem_cons.mp (ih (max x a)) with h1 | h1
    · rcases max_choice x a with h2 | h2 <;> rw [h1, h2] <;> simp
    · simp [h1]

lemma le_foldl_max (xs : List ℚ) (x : ℚ) : ∀ y ∈ x :: xs, y ≤ xs.foldl max x := by
  induction xs generalizing x with
  | nil =>
    intro y hy
    rw [List.mem_singleton] at hy
    rw [hy, List.foldl_nil]
  | cons a as ih =>
    intro y hy
    rw [List.foldl_cons]
    have hbase := ih (max x a) (max x a) (List.mem_cons_self _ _)
    rcases List.mem_cons.mp hy with h1 | h1
    · rw [h1]
      exact le_trans (le_max_left _ _) hbase
    rcases List.mem_cons.mp h1 with h2 | h2
    · rw [h2]
      exact le_trans (le_max_right _ _) hbase
    · exact ih (max x a) y (List.mem_cons_of_mem _ h2)

lemma listMin_mem {l : List ℚ} (h : l ≠ []) : listMin l ∈ l := by
  cases l with
  | nil => exact absurd rfl h
  | cons x xs => exact foldl_min_mem xs x

lemma listMin_le {l : List ℚ} : ∀ y ∈ l, listMin l ≤ y := by
  cases l with
  | nil => intro y hy; exact absurd hy (List.not_mem_nil y)
  | cons x xs => exact foldl_min_le xs x

lemma listMax_mem {l : List ℚ} (h : l ≠ []) : listMax l ∈ l := by
  cases l with
  | nil => exact absurd rfl h
  | cons x xs => exact foldl_max_mem xs x

lemma le_listMax {l : List ℚ} : ∀ y ∈ l, y ≤ listMax l := by
  cases l with
  | nil => intro y hy; exact absurd hy (List.not_mem_nil y)
  | cons x xs => exact le_foldl_max xs x

lemma listMin_le_listMax {l : List ℚ} (h : l ≠ []) : listMin l ≤ listMax l :=
  le_trans (listMin_le _ (listMax_mem h)) (le_refl _)

lemma length_pos_rat {l : List ℚ} (h : l ≠ []) : (0 : ℚ) < l.length := by
  have := List.length_pos.mpr h
  exact_mod_cast this

lemma listMean_le_listMax {l : List ℚ} (h : l ≠ []) : listMean l ≤ listMax l := by
  have hlen : (0 : ℚ) < l.length := length_pos_rat h
  have hsum : l.sum ≤ l.length • listMax l := List.sum_le_card_nsmul l _ (fun x hx => le_listMax x hx)
  rw [nsmul_eq_mul] at hsum
  rw [listMean, div_le_iff hlen]
  linarith [hsum]

lemma listMin_le_listMean {l : List ℚ} (h : l ≠ []) : listMin l ≤ listMean l := by
  have hlen : (0 : ℚ) < l.length := length_pos_rat h
  have hsum : l.length • listMin l ≤ l.sum := List.card_nsmul_le_sum l _ (fun x hx => listMin_le x hx)
  rw [nsmul_eq_mul] at hsum
  rw [listMean, le_div_iff hlen]
  linarith [hsum]

lemma listMean_pos {l : List ℚ} (h : l ≠ []) (hpos : ∀ x ∈ l, 0 < x) : 0 < listMean l := by
  have hlen : (0 : ℚ) < l.length := length_pos_rat h
  have hsum : 0 < l.sum := List.sum_pos l hpos h
  exact div_pos hsum hlen

lemma listMin_singleton (x : ℚ) : listMin [x] = x := rfl

lemma listMax_singleton (x : ℚ) : listMax [x] = x := rfl

lemma listMean_singleton (x : ℚ) : listMean [x] = x := by
  simp [listMean]

lemma listMax_append_singleton (x : ℚ) (xs : List ℚ) (y : ℚ) :
    listMax ((x :: xs) ++ [y]) = max (listMax (x :: xs)) y := by
  simp [listMax, List.foldl_append]

lemma listMin_append_singleton (x : ℚ) (xs : List ℚ) (y : ℚ) :
    listMin ((x :: xs) ++ [y]) = min (listMin (x :: xs)) y := by
  simp [listMin, List.foldl_append]

lemma listMean_append_singleton (l : List ℚ) (y : ℚ) :
    listMean (l ++ [y]) = (l.sum + y) / (l.length + 1) := by
  simp [listMean, List.sum_append, List.length_append]

/-- Appending a level at least the mean moves the mean up, but not past it. -/
lemma listMean_append_bounds {l : List ℚ} (h : l ≠ []) {y : ℚ}
    (hy : listMean l ≤ y) :
    listMean l ≤ listMean (l ++ [y]) ∧ listMean (l ++ [y]) ≤ y := by
  have hlen : (0 : ℚ) < l.length := length_pos_rat h
  have hlen1 : (0 : ℚ) < (l.length : ℚ) + 1 := by linarith
  have hsum : l.sum ≤ l.length * y := by
    rw [listMean, div_le_iff hlen] at hy
    linarith
  rw [listMean_append_singleton]
  constructor
  · rw [listMean, div_le_div_iff hlen hlen1]
    nlinarith [hsum]
  · rw [div_le_iff hlen1]
    nlinarith [hsum]

/-! ### C1: the alert classifier -/

/-- Every classification outcome is `(none, none)` or carries the zone key of
the zone's centroid price. -/
lemma check_price_alert_cases (cp : ℚ) (z : TaggedZone) (tf : String) :
    check_price_alert cp z tf = (none, none) ∨
    ∃ a : String, check_price_alert cp z tf = (some a, some (zoneKey tf z.type z.price)) := by
  simp only [check_price_alert]
  split
  · right; exact ⟨_, rfl⟩
  split
  · right; exact ⟨_, rfl⟩
  split
  · right; exact ⟨_, rfl⟩
  split
  · right; exact ⟨_, rfl⟩
  · left; rfl

/-- C1: for every current price, every zone with positive centroid and type
`support` or `resistance`, and every timeframe, `check_price_alert` returns
the result of the first matching rule of the spec's decision list (broken
below/above the band, in-zone inside the band, approaching within 2% of the
centroid, otherwise `(None, None)`); every non-`None` result carries the key
`f"{timeframe}_{type}_{price:.8f}"`, and the spec's concrete decision table
holds with defaults width 0.5% and approach 2% at centroid 100. -/
theorem C1_alert_classifier_first_match (current_price : ℚ) (zone : TaggedZone)
    (timeframe : String) (hpos : 0 < zone.price)
    (hty : zone.type = "support" ∨ zone.type = "resistance") :
    check_price_alert current_price zone timeframe =
      classifySpec current_price zone.price zone.type timeframe ∧
    (∀ a : String, (check_price_alert current_price zone timeframe).1 = some a →
      (check_price_alert current_price zone timeframe).2 =
        some (timeframe ++ "_" ++ zone.type ++ "_" ++ formatFixed8 zone.price)) ∧
    ((check_price_alert current_price zone timeframe).1 = none →
      check_price_alert current_price zone timeframe = (none, none)) ∧
    check_price_alert 99.70 (tagZone ⟨100, 3, 99, 101⟩ "support" "5m") "5m" =
      (some "broken", some "5m_support_100.00000000") ∧
    check_price_alert 100 (tagZone ⟨100, 3, 99, 101⟩ "support" "5m") "5m" =
      (some "in_zone", some "5m_support_100.00000000") ∧
    check_price_alert 101.5 (tagZone ⟨100, 3, 99, 101⟩ "support" "5m") "5m" =
      (some "approaching", some "5m_support_100.00000000") ∧
    check_price_alert 103 (tagZone ⟨100, 3, 99, 101⟩ "support" "5m") "5m" = (none, none) ∧
    check_price_alert 100.5 (tagZone ⟨100, 3, 99, 101⟩ "resistance" "5m") "5m" =
      (some "broken", some "5m_resistance_100.00000000") := by
  refine ⟨rfl, ?_, ?_, by decide, by decide, by decide, by decide, by decide⟩
  · intro a ha
    rcases check_price_alert_cases current_price zone timeframe with h | ⟨b, h⟩
    · rw [h] at ha
      exact absurd ha (by simp)
    · rw [h]
      rfl
  · intro hnone
    rcases check_price_alert_cases current_price zone timeframe with h | ⟨b, h⟩
    · exact h
    · rw [h] at hnone
      exact absurd hnone (by simp)

/-- Witness for C1 at a concrete input. -/
theorem C1_alert_classifier_first_match_witness :
    (0 : ℚ) < 100 ∧
    check_price_alert 100 (tagZone ⟨100, 3, 99, 101⟩ "support" "5m") "5m" =
      classifySpec 100 100 "support" "5m" := by
  constructor
  · norm_num
  · exact (C1_alert_classifier_first_match 100 (tagZone ⟨100, 3, 99, 101⟩ "support" "5m")
      "5m" (by norm_num [tagZone]) (Or.inl rfl)).1

/-! ### C2 and C8: the greedy clusterer -/

/-- Modelled from the spec: the §4.2 greedy pass, written as structural
recursion over the ascending levels — start a cluster with the first level,
append each subsequent level iff it is within tolerance of the running mean,
otherwise close the cluster and start a new one; close the final cluster. -/
def clusterPass (tol : ℚ) : List ℚ → List ℚ → List ClusterZone
  | current, [] => [mkZone current]
  | current, level :: rest =>
    if |level - listMean current| / listMean current ≤ tol / 100 then
      clusterPass tol (current ++ [level]) rest
    else
      mkZone current :: clusterPass tol [level] rest

/-- Modelled from the spec: §4.2 `LevelClusterer` — sort ascending, run the
greedy pass, rank descending by `touches`, cap at 5. -/
def cluster_levels_spec (levels : List ℚ) (t : ℚ) : List ClusterZone :=
  match List.insertionSort ratLE levels with
  | [] => []
  | l0 :: rest => (List.insertionSort touchesGE (clusterPass t [l0] rest)).take 5

/-- The code's fold agrees with the spec's recursion, for every starting
cluster and accumulator. -/
lemma foldl_clusterPass (t : ℚ) (rest : List ℚ) :
    ∀ (zones : List ClusterZone) (current : List ℚ),
    (rest.foldl (clusterStep t) (zones, current)).1 ++
      [mkZone (rest.foldl (clusterStep t) (zones, current)).2] =
    zones ++ clusterPass t current rest := by
  induction rest with
  | nil => intro zones current; simp [clusterPass]
  | cons l rs ih =>
    intro zones current
    by_cases h : |l - listMean current| / listMean current ≤ t / 100
    · have hstep : clusterStep t (zones, current) l = (zones, current ++ [l]) := by
        simp [clusterStep, h]
      have hpass : clusterPass t current (l :: rs) = clusterPass t (current ++ [l]) rs := by
        simp only [clusterPass]
        rw [if_pos h]
      rw [List.foldl_cons, hstep, ih, hpass]
    · have hstep : clusterStep t (zones, current) l =
          (zones ++ [mkZone current], [l]) := by
        simp [clusterStep, h]
      have hpass : clusterPass t current (l :: rs) =
          mkZone current :: clusterPass t [l] rs := by
        simp only [clusterPass]
        rw [if_neg h]
      rw [List.foldl_cons, hstep, ih, hpass, List.append_assoc, List.singleton_append]

/-- The clusterer's output never exceeds 5 zones. -/
lemma cluster_levels_length_le (levels : List ℚ) (t : ℚ) :
    (cluster_levels levels t).length ≤ 5 := by
  unfold cluster_levels
  split
  · simp
  · exact List.length_take_le _ _

/-- The clusterer's output is sorted descending by `touches`. -/
lemma cluster_levels_sorted (levels : List ℚ) (t : ℚ) :
    List.Sorted touchesGE (cluster_levels levels t) := by
  unfold cluster_levels
  split
  · exact List.sorted_nil
  · exact List.Pairwise.sublist (List.take_sublist _ _)
      (List.sorted_insertionSort touchesGE _)

/-- Sorting ascending is invariant under permutation of the input. -/
lemma insertionSort_ratLE_perm_eq {l1 l2 : List ℚ} (h : l1.Perm l2) :
    List.insertionSort ratLE l1 = List.insertionSort ratLE l2 :=
  List.eq_of_perm_of_sorted
    ((List.perm_insertionSort ratLE l1).trans
      (h.trans (List.perm_insertionSort ratLE l2).symm))
    (List.sorted_insertionSort ratLE l1) (List.sorted_insertionSort ratLE l2)

/-- C2: for every list of positive levels and tolerance `t`,
`_cluster_levels` returns exactly the zones of the spec's greedy pass
(running mean, recomputed at each comparison), capped at 5 zones sorted
descending by `touches`, and the empty input yields the empty list. -/
theorem C2_cluster_levels_matches_greedy_spec (levels : List ℚ) (t : ℚ)
    (hpos : ∀ l ∈ levels, 0 < l) :
    cluster_levels levels t = cluster_levels_spec levels t ∧
    (cluster_levels levels t).length ≤ 5 ∧
    List.Sorted touchesGE (cluster_levels levels t) ∧
    cluster_levels [] t = [] := by
  refine ⟨?_, cluster_levels_length_le levels t, cluster_levels_sorted levels t, rfl⟩
  unfold cluster_levels cluster_levels_spec
  cases h : List.insertionSort ratLE levels with
  | nil => rfl
  | cons l0 rest =>
    have heq := foldl_clusterPass t rest [] [l0]
    rw [List.nil_append] at heq
    simp only [heq]

/-- Witness for C2 at a concrete input. -/
theorem C2_cluster_levels_matches_greedy_spec_witness :
    (∀ l ∈ [(1 : ℚ), 2], 0 < l) ∧
    cluster_levels [(1 : ℚ), 2] (0.5 : ℚ) = cluster_levels_spec [(1 : ℚ), 2] (0.5 : ℚ) := by
  constructor
  · decide
  · exact (C2_cluster_levels_matches_greedy_spec [(1 : ℚ), 2] (0.5 : ℚ) (by decide)).1

/-- C8: `_cluster_levels` is invariant under permutation of its input: any
two orderings of the same level multiset yield identical zone lists. -/
theorem C8_cluster_levels_permutation_invariant (l1 l2 : List ℚ) (t : ℚ)
    (h : l1.Perm l2) : cluster_levels l1 t = cluster_levels l2 t := by
  unfold cluster_levels
  rw [insertionSort_ratLE_perm_eq h]

/-- Witness for C8 at a concrete input. -/
theorem C8_cluster_levels_permutation_invariant_witness :
    List.Perm [(2 : ℚ), 1, 1] [(1 : ℚ), 1, 2] ∧
    cluster_levels [(2 : ℚ), 1, 1] (0.5 : ℚ) = cluster_levels [(1 : ℚ), 1, 2] (0.5 : ℚ) := by
  constructor
  · decide
  · exact C8_cluster_levels_permutation_invariant [(2 : ℚ), 1, 1] [(1 : ℚ), 1, 2]
      (0.5 : ℚ) (by decide)

/-! ### C3 and C4: extrema detection -/

/-- Membership characterization of `argrelextrema` in clip mode. -/
lemma mem_relExtremaIdx {cmp : ℚ → ℚ → Bool} {data : List ℚ} {order i : ℕ} :
    i ∈ relExtremaIdx cmp data order ↔
    i < data.length ∧ ∀ s < order,
      cmp (data.getD i 0) (data.getD (min (i + (s + 1)) (data.length - 1)) 0) = true ∧
      cmp (data.getD i 0) (data.getD (i - (s + 1)) 0) = true := by
  unfold relExtremaIdx
  rw [List.mem_filter, List.mem_range]
  constructor
  · rintro ⟨h1, h2⟩
    refine ⟨h1, fun s hs => ?_⟩
    exact Bool.and_eq_true_iff.mp ((List.all_eq_true.mp h2) s (List.mem_range.mpr hs))
  · rintro ⟨h1, h2⟩
    refine ⟨h1, List.all_eq_true.mpr fun s hs => ?_⟩
    rw [Bool.and_eq_true_iff]
    exact h2 s (List.mem_range.mp hs)

/-- With an irreflexive comparator, clip mode always rejects the first and
last index of the series (they are compared against themselves). -/
lemma relExtremaIdx_interior {cmp : ℚ → ℚ → Bool} {data : List ℚ} {order : ℕ}
    (hord : 1 ≤ order) (hirr : ∀ x : ℚ, cmp x x = false) {i : ℕ}
    (hi : i ∈ relExtremaIdx cmp data order) : 0 < i ∧ i + 1 < data.length := by
  obtain ⟨hlen, hall⟩ := mem_relExtremaIdx.mp hi
  obtain ⟨hplus, hminus⟩ := hall 0 hord
  constructor
  · rcases Nat.eq_zero_or_pos i with h0 | h0
    · subst h0
      rw [show (0 : ℕ) - (0 + 1) = 0 by rfl] at hminus
      rw [hirr] at hminus
      exact absurd hminus (by simp)
    · exact h0
  · by_contra hlast
    push_neg at hlast
    have hmin : min (i + (0 + 1)) (data.length - 1) = i := by omega
    rw [hmin, hirr] at hplus
    exact absurd hplus (by simp)

/-- A reported index beats every in-range neighbor within the window under
the comparator. -/
lemma relExtremaIdx_compares {cmp : ℚ → ℚ → Bool} {data : List ℚ} {order : ℕ} {i : ℕ}
    (hi : i ∈ relExtremaIdx cmp data order) {j : ℕ} (hj : j < data.length)
    (hne : j ≠ i) (hdist : Nat.dist i j ≤ order) :
    cmp (data.getD i 0) (data.getD j 0) = true := by
  obtain ⟨hlen, hall⟩ := mem_relExtremaIdx.mp hi
  have hd : i - j + (j - i) ≤ order := by rwa [Nat.dist] at hdist
  rcases Nat.lt_or_ge i j with hij | hij
  · have hs : j - i - 1 < order := by omega
    obtain ⟨hplus, _⟩ := hall (j - i - 1) hs
    have hmin : min (i + (j - i - 1 + 1)) (data.length - 1) = j := by omega
    rwa [hmin] at hplus
  · have hij2 : j < i := lt_of_le_of_ne hij hne
    have hs : i - j - 1 < order := by omega
    obtain ⟨_, hminus⟩ := hall (i - j - 1) hs
    have hsub : i - (i - j - 1 + 1) = j := by omega
    rwa [hsub] at hminus

lemma getD_map_high (df : List Candle) {j : ℕ} (hj : j < df.length) :
    (df.map Candle.high).getD j 0 = (df.getD j dummyCandle).high := by
  rw [List.getD_eq_getElem?_getD, List.getD_eq_getElem?_getD, List.getElem?_map,
    List.getElem?_eq_getElem hj]
  rfl

lemma getD_map_low (df : List Candle) {j : ℕ} (hj : j < df.length) :
    (df.map Candle.low).getD j 0 = (df.getD j dummyCandle).low := by
  rw [List.getD_eq_getElem?_getD, List.getD_eq_getElem?_getD, List.getElem?_map,
    List.getElem?_eq_getElem hj]
  rfl

/-- Every reported peak is a strict local maximum of `high` over its in-range
window neighbors. -/
lemma peaksIdx_strict {df : List Candle} {order : ℕ} {i : ℕ}
    (hi : i ∈ peaksIdx df order) {j : ℕ} (hj : j < df.length) (hne : j ≠ i)
    (hdist : Nat.dist i j ≤ order) :
    (df.getD j dummyCandle).high < (df.getD i dummyCandle).high := by
  have hj2 : j < (df.map Candle.high).length := by simpa using hj
  have hcmp := relExtremaIdx_compares hi hj2 hne hdist
  have hi2 : i < (df.map Candle.high).length :=
    (mem_relExtremaIdx.mp hi).1
  have hi3 : i < df.length := by simpa using hi2
  rw [getD_map_high df hi3, getD_map_high df hj] at hcmp
  exact of_decide_eq_true hcmp

/-- Every reported trough is a strict local minimum of `low` over its in-range
window neighbors. -/
lemma troughsIdx_strict {df : List Candle} {order : ℕ} {i : ℕ}
    (hi : i ∈ troughsIdx df order) {j : ℕ} (hj : j < df.length) (hne : j ≠ i)
    (hdist : Nat.dist i j ≤ order) :
    (df.getD i dummyCandle).low < (df.getD j dummyCandle).low := by
  have hj2 : j < (df.map Candle.low).length := by simpa using hj
  have hcmp := relExtremaIdx_compares hi hj2 hne hdist
  have hi2 : i < (df.map Candle.low).length :=
    (mem_relExtremaIdx.mp hi).1
  have hi3 : i < df.length := by simpa using hi2
  rw [getD_map_low df hi3, getD_map_low df hj] at hcmp
  exact of_decide_eq_true hcmp

lemma peaksIdx_interior {df : List Candle} {order : ℕ} (hord : 1 ≤ order) {i : ℕ}
    (hi : i ∈ peaksIdx df order) : 0 < i ∧ i + 1 < df.length := by
  have := relExtremaIdx_interior hord (fun x => by simp) hi
  rwa [List.length_map] at this

lemma troughsIdx_interior {df : List Candle} {order : ℕ} (hord : 1 ≤ order) {i : ℕ}
    (hi : i ∈ troughsIdx df order) : 0 < i ∧ i + 1 < df.length := by
  have := relExtremaIdx_interior hord (fun x => by simp) hi
  rwa [List.length_map] at this

/-- The candle series used to refute C3: seven candles whose second candle
has the unique maximal high. -/
def dfEdge : List Candle :=
  [⟨0, 1, 1, 1, 1, 1⟩, ⟨1, 1, 10, 1, 1, 1⟩, ⟨2, 1, 1, 1, 1, 1⟩, ⟨3, 1, 1, 1, 1, 1⟩,
   ⟨4, 1, 1, 1, 1, 1⟩, ⟨5, 1, 1, 1, 1, 1⟩, ⟨6, 1, 1, 1, 1, 1⟩]

/-- Counterexample to C3: with `order = 5` and a seven-candle series (shorter
than `2*order+1 = 11`), the detector reports a peak at index 1, which lies
within `order` positions of the left boundary. -/
theorem C3_extrema_edge_exclusion_counterexample :
    dfEdge.length = 7 ∧ dfEdge.length < 2 * 5 + 1 ∧ 1 ≤ 5 ∧
    peaksIdx dfEdge 5 = [1] ∧
    (find_peaks_and_troughs dfEdge 5).1 = [(1, 10)] := by
  refine ⟨rfl, by decide, by decide, by decide, by decide⟩

/-- C3 (amended): for `1 ≤ order`, `argrelextrema` in clip mode excludes only
the two literal boundary candles — every reported peak or trough index `i`
satisfies `0 < i` and `i + 1 < len`; interior indices closer than `order` to
a boundary can still qualify, and a series shorter than `2*order+1` can
contain extrema. -/
theorem C3_extrema_boundary_exclusion (df : List Candle) (order : ℕ)
    (hord : 1 ≤ order) :
    (∀ i ∈ peaksIdx df order, 0 < i ∧ i + 1 < df.length) ∧
    (∀ i ∈ troughsIdx df order, 0 < i ∧ i + 1 < df.length) :=
  ⟨fun _ hi => peaksIdx_interior hord hi, fun _ hi => troughsIdx_interior hord hi⟩

/-- Witness for the amended C3 at a concrete input. -/
theorem C3_extrema_boundary_exclusion_witness :
    1 ≤ 5 ∧ (∀ i ∈ peaksIdx dfEdge 5, 0 < i ∧ i + 1 < dfEdge.length) :=
  ⟨by decide, (C3_extrema_boundary_exclusion dfEdge 5 (by decide)).1⟩

/-- C4: every reported peak strictly exceeds, and every reported trough is
strictly below, each in-range neighbor within the window that the detector
compares against; exact ties never qualify, and a series with constant
`high` yields zero peaks. -/
theorem C4_extrema_strictness (df : List Candle) (order : ℕ) (hord : 1 ≤ order) :
    (∀ i ∈ peaksIdx df order, ∀ j < df.length, j ≠ i → Nat.dist i j ≤ order →
      (df.getD j dummyCandle).high < (df.getD i dummyCandle).high) ∧
    (∀ i ∈ troughsIdx df order, ∀ j < df.length, j ≠ i → Nat.dist i j ≤ order →
      (df.getD i dummyCandle).low < (df.getD j dummyCandle).low) ∧
    (∀ i ∈ peaksIdx df order, ∀ j < df.length, j ≠ i → Nat.dist i j ≤ order →
      (df.getD j dummyCandle).high ≠ (df.getD i dummyCandle).high) ∧
    (∀ c : ℚ, (∀ cd ∈ df, cd.high = c) → peaksIdx df order = []) := by
  refine ⟨fun i hi j hj hne hd => peaksIdx_strict hi hj hne hd,
    fun i hi j hj hne hd => troughsIdx_strict hi hj hne hd,
    fun i hi j hj hne hd => ne_of_lt (peaksIdx_strict hi hj hne hd), ?_⟩
  intro c hconst
  by_contra hne
  obtain ⟨i, hi⟩ := List.exists_mem_of_ne_nil _ hne
  obtain ⟨h0, hlen⟩ := peaksIdx_interior hord hi
  have hj : i - 1 < df.length := by omega
  have hlt := peaksIdx_strict hi hj (by omega) (by rw [Nat.dist]; omega)
  have hmem1 : df.getD (i - 1) dummyCandle ∈ df := by
    rw [List.getD_eq_getElem _ _ hj]
    exact List.getElem_mem _
  have hmem2 : df.getD i dummyCandle ∈ df := by
    rw [List.getD_eq_getElem _ _ (by omega : i < df.length)]
    exact List.getElem_mem _
  rw [hconst _ hmem1, hconst _ hmem2] at hlt
  exact lt_irrefl c hlt

/-- Witness for C4 at a concrete input. -/
theorem C4_extrema_strictness_witness :
    1 ≤ 5 ∧ (∀ c : ℚ, (∀ cd ∈ dfEdge, cd.high = c) → peaksIdx dfEdge 5 = []) :=
  ⟨by decide, (C4_extrema_strictness dfEdge 5 (by decide)).2.2.2⟩

/-! ### C5 and C6: zone validation and zone invariants -/

/-- The Zone shape invariant of the spec's data model. -/
def Zinv (z : ClusterZone) : Prop :=
  z.min_price ≤ z.price ∧ z.price ≤ z.max_price ∧ 1 ≤ z.touches

/-- Closing a nonempty cluster yields a well-formed zone. -/
lemma mkZone_inv {current : List ℚ} (h : current ≠ []) : Zinv (mkZone current) := by
  refine ⟨listMin_le_listMean h, listMean_le_listMax h, ?_⟩
  simpa [mkZone] using List.length_pos.mpr h

/-- Along the clustering fold, every emitted zone is well-formed and the open
cluster stays nonempty. -/
lemma clusterfold_inv (t : ℚ) (rest : List ℚ) :
    ∀ (zones : List ClusterZone) (current : List ℚ), current ≠ [] →
    (∀ z ∈ zones, Zinv z) →
    (∀ z ∈ (rest.foldl (clusterStep t) (zones, current)).1, Zinv z) ∧
    (rest.foldl (clusterStep t) (zones, current)).2 ≠ [] := by
  induction rest with
  | nil => intro zones current hc hz; exact ⟨hz, hc⟩
  | cons l rs ih =>
    intro zones current hc hz
    rw [List.foldl_cons]
    by_cases h : |l - listMean current| / listMean current ≤ t / 100
    · have hstep : clusterStep t (zones, current) l = (zones, current ++ [l]) := by
        simp [clusterStep, h]
      rw [hstep]
      exact ih zones (current ++ [l]) (by simp) hz
    · have hstep : clusterStep t (zones, current) l =
          (zones ++ [mkZone current], [l]) := by
        simp [clusterStep, h]
      rw [hstep]
      refine ih _ _ (by simp) ?_
      intro z hzmem
      rcases List.mem_append.mp hzmem with h1 | h1
      · exact hz z h1
      · rw [List.mem_singleton] at h1
        rw [h1]
        exact mkZone_inv hc

/-- Every zone produced by `_cluster_levels` is well-formed. -/
lemma cluster_levels_inv (levels : List ℚ) (t : ℚ) :
    ∀ z ∈ cluster_levels levels t, Zinv z := by
  intro z hz
  unfold cluster_levels at hz
  split at hz
  · exact absurd hz (List.not_mem_nil z)
  · rename_i l0 rest heq
    have hz2 := (List.mem_insertionSort touchesGE).mp (List.mem_of_mem_take hz)
    obtain ⟨hinv, hcur⟩ := clusterfold_inv t rest [] [l0] (by simp) (by simp)
    rcases List.mem_append.mp hz2 with h1 | h1
    · exact hinv z h1
    · rw [List.mem_singleton] at h1
      rw [h1]
      exact mkZone_inv hcur

/-- Tagging with a fixed type and timeframe is injective on the zone. -/
lemma tagZone_inj {z z' : ClusterZone} {ty tf : String}
    (h : tagZone z ty tf = tagZone z' ty tf) : z = z' := by
  simpa [tagZone, TaggedZone.mk.injEq] using h

/-- C6: every zone produced by `_cluster_levels`, and every zone returned by
`find_support_resistance_zones`, satisfies `min_price ≤ price ≤ max_price`
and `touches ≥ 1`; the tags assigned at creation are exactly the ones the
returned zones carry, and the underlying cluster fields are unchanged by
tagging. -/
theorem C6_zone_shape_invariants :
    (∀ (levels : List ℚ) (t : ℚ), ∀ z ∈ cluster_levels levels t,
      z.min_price ≤ z.price ∧ z.price ≤ z.max_price ∧ 1 ≤ z.touches) ∧
    (∀ (df : List Candle) (tf : String),
      ∀ w ∈ (find_support_resistance_zones df tf).valid_support,
        (w.min_price ≤ w.price ∧ w.price ≤ w.max_price ∧ 1 ≤ w.touches) ∧
        w.type = "support" ∧ w.timeframe = tf ∧
        w.toClusterZone ∈ cluster_levels
          ((find_peaks_and_troughs df 5).2.map Prod.snd) ZONE_WIDTH_PERCENT) ∧
    (∀ (df : List Candle) (tf : String),
      ∀ w ∈ (find_support_resistance_zones df tf).valid_resistance,
        (w.min_price ≤ w.price ∧ w.price ≤ w.max_price ∧ 1 ≤ w.touches) ∧
        w.type = "resistance" ∧ w.timeframe = tf ∧
        w.toClusterZone ∈ cluster_levels
          ((find_peaks_and_troughs df 5).1.map Prod.snd) ZONE_WIDTH_PERCENT) := by
  refine ⟨fun levels t z hz => cluster_levels_inv levels t z hz, ?_, ?_⟩
  · intro df tf w hw
    obtain ⟨z, hzmem, heq⟩ := List.mem_map.mp hw
    obtain ⟨hzc, _⟩ := List.mem_filter.mp hzmem
    rw [← heq]
    exact ⟨cluster_levels_inv _ _ z hzc, rfl, rfl, hzc⟩
  · intro df tf w hw
    obtain ⟨z, hzmem, heq⟩ := List.mem_map.mp hw
    obtain ⟨hzc, _⟩ := List.mem_filter.mp hzmem
    rw [← heq]
    exact ⟨cluster_levels_inv _ _ z hzc, rfl, rfl, hzc⟩

/-- Witness for C6 at a concrete input. -/
theorem C6_zone_shape_invariants_witness :
    (⟨1, 1, 1, 1⟩ : ClusterZone) ∈ cluster_levels [(1 : ℚ), 2] (0.5 : ℚ) ∧
    ((⟨1, 1, 1, 1⟩ : ClusterZone).min_price ≤ (⟨1, 1, 1, 1⟩ : ClusterZone).price ∧
      (⟨1, 1, 1, 1⟩ : ClusterZone).price ≤ (⟨1, 1, 1, 1⟩ : ClusterZone).max_price ∧
      1 ≤ (⟨1, 1, 1, 1⟩ : ClusterZone).touches) :=
  ⟨by decide, C6_zone_shape_invariants.1 [(1 : ℚ), 2] (0.5 : ℚ) ⟨1, 1, 1, 1⟩ (by decide)⟩

/-- C5: with `c` the last close of the series, a clustered support zone is in
the returned support list iff `c ≥ zone.min_price`, a clustered resistance
zone is in the returned resistance list iff `c ≤ zone.max_price`; surviving
zones are tagged with their type and the given timeframe, the relative order
of the clusterer's output is preserved (the returned lists are literally
filter-then-tag of it), and the 5-entry cap is inherited. -/
theorem C5_zone_validator_filter (df : List Candle) (tf : String) (hdf : df ≠ []) :
    (find_support_resistance_zones df tf).valid_support =
      ((cluster_levels ((find_peaks_and_troughs df 5).2.map Prod.snd)
          ZONE_WIDTH_PERCENT).filter
        (fun z => lastClose df ≥ z.min_price)).map (fun z => tagZone z "support" tf) ∧
    (find_support_resistance_zones df tf).valid_resistance =
      ((cluster_levels ((find_peaks_and_troughs df 5).1.map Prod.snd)
          ZONE_WIDTH_PERCENT).filter
        (fun z => lastClose df ≤ z.max_price)).map (fun z => tagZone z "resistance" tf) ∧
    (∀ z : ClusterZone,
      tagZone z "support" tf ∈ (find_support_resistance_zones df tf).valid_support ↔
      (z ∈ cluster_levels ((find_peaks_and_troughs df 5).2.map Prod.snd)
          ZONE_WIDTH_PERCENT ∧
        lastClose df ≥ z.min_price)) ∧
    (∀ z : ClusterZone,
      tagZone z "resistance" tf ∈ (find_support_resistance_zones df tf).valid_resistance ↔
      (z ∈ cluster_levels ((find_peaks_and_troughs df 5).1.map Prod.snd)
          ZONE_WIDTH_PERCENT ∧
        lastClose df ≤ z.max_price)) ∧
    (find_support_resistance_zones df tf).valid_support.length ≤ 5 ∧
    (find_support_resistance_zones df tf).valid_resistance.length ≤ 5 := by
  refine ⟨rfl, rfl, ?_, ?_, ?_, ?_⟩
  · intro z
    show tagZone z "support" tf ∈
      ((cluster_levels ((find_peaks_and_troughs df 5).2.map Prod.snd)
          ZONE_WIDTH_PERCENT).filter
        (fun z => lastClose df ≥ z.min_price)).map (fun z => tagZone z "support" tf) ↔ _
    rw [List.mem_map]
    constructor
    · rintro ⟨z', hz', heq⟩
      obtain ⟨hzc, hge⟩ := List.mem_filter.mp hz'
      have hzz : z' = z := tagZone_inj heq
      subst hzz
      exact ⟨hzc, by simpa using hge⟩
    · rintro ⟨hz, hge⟩
      exact ⟨z, List.mem_filter.mpr ⟨hz, by simpa using hge⟩, rfl⟩
  · intro z
    show tagZone z "resistance" tf ∈
      ((cluster_levels ((find_peaks_and_troughs df 5).1.map Prod.snd)
          ZONE_WIDTH_PERCENT).filter
        (fun z => lastClose df ≤ z.max_price)).map (fun z => tagZone z "resistance" tf) ↔ _
    rw [List.mem_map]
    constructor
    · rintro ⟨z', hz', heq⟩
      obtain ⟨hzc, hge⟩ := List.mem_filter.mp hz'
      have hzz : z' = z := tagZone_inj heq
      subst hzz
      exact ⟨hzc, by simpa using hge⟩
    · rintro ⟨hz, hge⟩
      exact ⟨z, List.mem_filter.mpr ⟨hz, by simpa using hge⟩, rfl⟩
  · show (((cluster_levels ((find_peaks_and_troughs df 5).2.map Prod.snd)
        ZONE_WIDTH_PERCENT).filter
      (fun z => lastClose df ≥ z.min_price)).map (fun z => tagZone z "support" tf)).length ≤ 5
    rw [List.length_map]
    exact le_trans (List.length_filter_le _ _) (cluster_levels_length_le _ _)
  · show (((cluster_levels ((find_peaks_and_troughs df 5).1.map Prod.snd)
        ZONE_WIDTH_PERCENT).filter
      (fun z => lastClose df ≤ z.max_price)).map (fun z => tagZone z "resistance" tf)).length ≤ 5
    rw [List.length_map]
    exact le_trans (List.length_filter_le _ _) (cluster_levels_length_le _ _)

/-- Witness for C5 at a concrete input. -/
theorem C5_zone_validator_filter_witness :
    dfEdge ≠ [] ∧
    (find_support_resistance_zones dfEdge "5m").valid_support =
      ((cluster_levels ((find_peaks_and_troughs dfEdge 5).2.map Prod.snd)
          ZONE_WIDTH_PERCENT).filter
        (fun z => lastClose dfEdge ≥ z.min_price)).map
          (fun z => tagZone z "support" "5m") :=
  ⟨by decide, (C5_zone_validator_filter dfEdge "5m" (by decide)).1⟩

/-! ### C7 and C9: caller-level sent-alert bookkeeping -/

/-- A string extended on the right still starts with the original string. -/
lemma startswith_append (a b : String) : startswith (a ++ b) a = true := by
  unfold startswith
  rw [String.data_append, List.take_left]
  exact beq_self_eq_true a.data

/-- Evaluation of `get_alert_status` when a `broken` classification is newly
recorded: the alert is returned, the record is prepended to the history, and
every sent key of the ticker is dropped. -/
lemma get_alert_status_broken_new (st : AlertsState) (cp : ℚ) (zone : TaggedZone)
    (tf ticker zk : String)
    (hchk : check_price_alert cp zone tf = (some "broken", some zk))
    (hnew : (ticker ++ "_" ++ zk) ∉ st.sent_alerts) :
    get_alert_status st cp zone tf ticker =
      (some "broken",
        ⟨(st.sent_alerts ++ [ticker ++ "_" ++ zk]).filter
            (fun k => !(startswith k (ticker ++ "_"))),
          (mkAlertRecord ticker tf "broken" zone cp :: st.alert_history).take 50⟩) := by
  unfold get_alert_status
  rw [hchk]
  simp only [if_neg hnew, if_true]

/-- The zone used in the C7 counterexample: a support zone at centroid 100. -/
def zoneS100 : TaggedZone := tagZone ⟨100, 3, 99, 101⟩ "support" "5m"

/-- The sent-alert state used in the C7 counterexample: the broken zone's own
key and one other key of the same ticker have already been recorded. -/
def stC7 : AlertsState :=
  ⟨["BTCUSDT_5m_support_100.00000000", "BTCUSDT_1h_support_50.00000000"], []⟩

/-- Counterexample to C7: price 99 classifies the zone as `broken`, yet
because the broken zone's key is already in the sent set the call is
suppressed and returns the state unchanged — the ticker's previously
recorded keys are not cleared. -/
theorem C7_broken_reset_counterexample :
    check_price_alert 99 zoneS100 "5m" =
      (some "broken", some "5m_support_100.00000000") ∧
    get_alert_status stC7 99 zoneS100 "5m" "BTCUSDT" = (some "broken", stC7) ∧
    "BTCUSDT_1h_support_50.00000000" ∈
      (get_alert_status stC7 99 zoneS100 "5m" "BTCUSDT").2.sent_alerts ∧
    startswith "BTCUSDT_1h_support_50.00000000" "BTCUSDT_" = true :=
  ⟨by decide, by decide, by decide, by decide⟩

/-- C7 (amended): after `get_alert_status` records a new `broken` alert — the
broken zone's full key not already being in the sent set — all previously
recorded sent keys of that ticker, across all timeframes and zones, are
cleared; a `broken` classification whose key was already sent is suppressed
and clears nothing. -/
theorem C7_broken_reset_clears_ticker (st : AlertsState) (cp : ℚ)
    (zone : TaggedZone) (tf ticker zk : String)
    (hchk : check_price_alert cp zone tf = (some "broken", some zk))
    (hnew : (ticker ++ "_" ++ zk) ∉ st.sent_alerts) :
    (get_alert_status st cp zone tf ticker).1 = some "broken" ∧
    ∀ k ∈ (get_alert_status st cp zone tf ticker).2.sent_alerts,
      startswith k (ticker ++ "_") = false := by
  rw [get_alert_status_broken_new st cp zone tf ticker zk hchk hnew]
  refine ⟨rfl, ?_⟩
  intro k hk
  have h2 := (List.mem_filter.mp hk).2
  simpa using h2

/-- Witness for the amended C7 at a concrete input. -/
theorem C7_broken_reset_clears_ticker_witness :
    check_price_alert 99 zoneS100 "5m" =
      (some "broken", some "5m_support_100.00000000") ∧
    ("BTCUSDT" ++ "_" ++ "5m_support_100.00000000") ∉
      (⟨[], []⟩ : AlertsState).sent_alerts ∧
    ∀ k ∈ (get_alert_status ⟨[], []⟩ 99 zoneS100 "5m" "BTCUSDT").2.sent_alerts,
      startswith k ("BTCUSDT" ++ "_") = false :=
  ⟨by decide, by decide,
    (C7_broken_reset_clears_ticker ⟨[], []⟩ 99 zoneS100 "5m" "BTCUSDT"
      "5m_support_100.00000000" (by decide) (by decide)).2⟩

/-- C9: a newly recorded `broken` alert is never deduplicated across
consecutive checks — the reset removes the broken zone's own key along with
the rest of the ticker's keys, so an identical repeated call again
classifies `broken` and records a fresh alert instead of being suppressed. -/
theorem C9_broken_never_deduplicated (st : AlertsState) (cp : ℚ)
    (zone : TaggedZone) (tf ticker zk : String)
    (hchk : check_price_alert cp zone tf = (some "broken", some zk))
    (hnew : (ticker ++ "_" ++ zk) ∉ st.sent_alerts)
    (hlen : st.alert_history.length ≤ 48) :
    (get_alert_status st cp zone tf ticker).1 = some "broken" ∧
    (ticker ++ "_" ++ zk) ∉ (get_alert_status st cp zone tf ticker).2.sent_alerts ∧
    (get_alert_status (get_alert_status st cp zone tf ticker).2
        cp zone tf ticker).1 = some "broken" ∧
    (get_alert_status (get_alert_status st cp zone tf ticker).2
        cp zone tf ticker).2.alert_history.length =
      (get_alert_status st cp zone tf ticker).2.alert_history.length + 1 := by
  have h1 := get_alert_status_broken_new st cp zone tf ticker zk hchk hnew
  have hnotin : (ticker ++ "_" ++ zk) ∉
      (get_alert_status st cp zone tf ticker).2.sent_alerts := by
    rw [h1]
    intro hmem
    have h2 := (List.mem_filter.mp hmem).2
    rw [show ticker ++ "_" ++ zk = (ticker ++ "_") ++ zk from rfl,
      startswith_append] at h2
    exact absurd h2 (by simp)
  have h2 := get_alert_status_broken_new (get_alert_status st cp zone tf ticker).2
    cp zone tf ticker zk hchk hnotin
  refine ⟨by rw [h1], hnotin, by rw [h2], ?_⟩
  rw [h2]
  have hlen1 : (get_alert_status st cp zone tf ticker).2.alert_history.length =
      st.alert_history.length + 1 := by
    rw [h1]
    simp only [List.length_take, List.length_cons]
    omega
  simp only [List.length_take, List.length_cons]
  omega

/-- Witness for C9 at a concrete input. -/
theorem C9_broken_never_deduplicated_witness :
    check_price_alert 99 zoneS100 "5m" =
      (some "broken", some "5m_support_100.00000000") ∧
    ("BTCUSDT" ++ "_" ++ "5m_support_100.00000000") ∉
      (⟨[], []⟩ : AlertsState).sent_alerts ∧
    (⟨[], []⟩ : AlertsState).alert_history.length ≤ 48 ∧
    (get_alert_status (get_alert_status ⟨[], []⟩ 99 zoneS100 "5m" "BTCUSDT").2
        99 zoneS100 "5m" "BTCUSDT").2.alert_history.length =
      (get_alert_status ⟨[], []⟩ 99 zoneS100 "5m" "BTCUSDT").2.alert_history.length + 1 :=
  ⟨by decide, by decide, by decide,
    (C9_broken_never_deduplicated ⟨[], []⟩ 99 zoneS100 "5m" "BTCUSDT"
      "5m_support_100.00000000" (by decide) (by decide) (by decide)).2.2.2⟩

/-! ### C10: pairwise disjoint zone extents -/

/-- Strict separation of two zones' price extents. -/
def zLT (a b : ClusterZone) : Prop := a.max_price < b.min_price

/-- Ordered separation of two well-formed zones: the extents are ordered, and
strictly so whenever the centroids differ. -/
def zR (a b : ClusterZone) : Prop :=
  (a.min_price ≤ a.price ∧ a.price ≤ a.max_price) ∧
  (b.min_price ≤ b.price ∧ b.price ≤ b.max_price) ∧
  a.max_price ≤ b.min_price ∧ (a.price < b.price → a.max_price < b.min_price)

instance : IsTrans ClusterZone zR := by
  refine ⟨fun a b c hab hbc => ⟨hab.1, hbc.2.1, ?_, ?_⟩⟩
  · exact le_trans hab.2.2.1 (le_trans hbc.1.1 (le_trans hbc.1.2 hbc.2.2.1))
  · intro hac
    by_cases hpb : a.price < b.price
    · exact lt_of_lt_of_le (hab.2.2.2 hpb)
        (le_trans hbc.1.1 (le_trans hbc.1.2 hbc.2.2.1))
    · push_neg at hpb
      have h1 : a.price ≤ b.price := le_trans hab.1.2 (le_trans hab.2.2.1 hbc.1.1)
      have heq : a.price = b.price := le_antisymm h1 hpb
      have hbc2 : b.price < c.price := heq ▸ hac
      exact lt_of_le_of_lt (le_trans hab.2.2.1 (le_trans hbc.1.1 hbc.1.2))
        (hbc.2.2.2 hbc2)

/-- A strictly separated chain of well-formed zones is a `zR`-chain. -/
lemma chain'_zR {l : List ClusterZone} (hc : List.Chain' zLT l)
    (hz : ∀ z ∈ l, Zinv z) : List.Chain' zR l := by
  induction l with
  | nil => exact List.chain'_nil
  | cons a l ih =>
    cases l with
    | nil => simp
    | cons b l2 =>
      rw [List.chain'_cons] at hc ⊢
      obtain ⟨hab, hc2⟩ := hc
      have hza := hz a (by simp)
      have hzb := hz b (by simp)
      refine ⟨⟨⟨hza.1, hza.2.1⟩, ⟨hzb.1, hzb.2.1⟩, le_of_lt hab, fun _ => hab⟩, ?_⟩
      exact ih hc2 (fun z hzm => hz z (List.mem_cons_of_mem _ hzm))

/-- In a `zR`-pairwise list, the member with the smaller centroid has the
strictly smaller extent. -/
lemma pairwise_zR_price {l : List ClusterZone} (hp : List.Pairwise zR l) :
    ∀ a ∈ l, ∀ b ∈ l, a.price < b.price → a.max_price < b.min_price := by
  induction l with
  | nil => intro a ha; exact absurd ha (List.not_mem_nil a)
  | cons x xs ih =>
    rw [List.pairwise_cons] at hp
    obtain ⟨hx, hp2⟩ := hp
    intro a ha b hb hlt
    rcases List.mem_cons.mp ha with ha1 | ha1
    · rcases List.mem_cons.mp hb with hb1 | hb1
      · rw [ha1, hb1] at hlt
        exact absurd hlt (lt_irrefl _)
      · rw [ha1]
        rw [ha1] at hlt
        exact (hx b hb1).2.2.2 hlt
    · rcases List.mem_cons.mp hb with hb1 | hb1
      · have hxa := hx a ha1
        rw [hb1] at hlt
        exact absurd hlt
          (not_lt.mpr (le_trans (le_trans hxa.1.2 hxa.2.2.1) hxa.2.1.1))
      · exact ih hp2 a ha1 b hb1 hlt

/-- Peeling the sort-and-cap: every returned zone comes from the greedy
fold's zone list. -/
lemma mem_cluster_levels {levels : List ℚ} {t : ℚ} {z : ClusterZone}
    (hz : z ∈ cluster_levels levels t) :
    ∃ l0 rest, List.insertionSort ratLE levels = l0 :: rest ∧
      z ∈ (rest.foldl (clusterStep t) ([], [l0])).1 ++
        [mkZone (rest.foldl (clusterStep t) ([], [l0])).2] := by
  unfold cluster_levels at hz
  split at hz
  · exact absurd hz (List.not_mem_nil z)
  · rename_i l0 rest heq
    exact ⟨l0, rest, heq, (List.mem_insertionSort touchesGE).mp (List.mem_of_mem_take hz)⟩

lemma mkZone_singleton (x : ℚ) : mkZone [x] = ⟨x, 1, x, x⟩ := by
  simp [mkZone, listMean_singleton, listMin_singleton, listMax_singleton]

/-- Singleton zones built over an ascending list form a `zR`-chain. -/
lemma chain_zR_map_sing {l : List ℚ} (hs : List.Sorted ratLE l) :
    List.Chain' zR (l.map (fun x => mkZone [x])) := by
  rw [List.chain'_map]
  have hc : List.Chain' ratLE l := List.chain'_iff_pairwise.mpr hs
  refine hc.imp ?_
  intro a b hab
  rw [mkZone_singleton, mkZone_singleton]
  exact ⟨⟨le_refl a, le_refl a⟩, ⟨le_refl b, le_refl b⟩, hab, fun h => h⟩

/-- With a negative tolerance the ratio test always fails, so every level
becomes its own singleton cluster. -/
lemma clusterfold_neg (t : ℚ) (ht : t < 0) (rest : List ℚ) :
    ∀ (zones : List ClusterZone) (c : ℚ), 0 < c →
    (∀ x ∈ rest, 0 < x) →
    (rest.foldl (clusterStep t) (zones, [c])).1 ++
      [mkZone (rest.foldl (clusterStep t) (zones, [c])).2] =
    zones ++ (c :: rest).map (fun l => mkZone [l]) := by
  induction rest with
  | nil =>
    intro zones c hc hr
    simp
  | cons l rs ih =>
    intro zones c hc hr
    rw [List.foldl_cons]
    have hcond : ¬ (|l - listMean [c]| / listMean [c] ≤ t / 100) := by
      rw [listMean_singleton]
      intro hcon
      have h1 : (0 : ℚ) ≤ |l - c| / c := div_nonneg (abs_nonneg _) (le_of_lt hc)
      have h2 : t / 100 < 0 := div_neg_of_neg_of_pos ht (by norm_num)
      linarith
    have hstep : clusterStep t (zones, [c]) l = (zones ++ [mkZone [c]], [l]) := by
      simp [clusterStep, hcond]
    rw [hstep, ih (zones ++ [mkZone [c]]) l (hr l (by simp))
      (fun x hx => hr x (by simp [hx]))]
    simp [List.append_assoc]

/-- With a nonnegative tolerance, the greedy fold keeps the emitted zones
strictly separated: the invariant ties the open cluster's maximum to its
running mean, so a tolerance break forces the next level strictly above the
whole open cluster. -/
lemma clusterfold_chain_nonneg (t : ℚ) (ht : 0 ≤ t) (rest : List ℚ) :
    ∀ (zones : List ClusterZone) (current : List ℚ),
    current ≠ [] →
    (∀ x ∈ current, 0 < x) →
    (∀ x ∈ rest, 0 < x) →
    List.Sorted ratLE (listMax current :: rest) →
    List.Chain' zLT zones →
    (∀ a, zones.getLast? = some a → a.max_price < listMin current) →
    listMax current ≤ (1 + t / 100) * listMean current →
    List.Chain' zLT ((rest.foldl (clusterStep t) (zones, current)).1 ++
      [mkZone (rest.foldl (clusterStep t) (zones, current)).2]) := by
  induction rest with
  | nil =>
    intro zones current hcne hcpos hrpos hsort hchain hlink hrat
    rw [List.foldl_nil]
    refine List.Chain'.append hchain (List.chain'_singleton _) ?_
    intro x hx y hy
    rw [List.head?_cons, Option.mem_some_iff] at hy
    rw [← hy]
    exact hlink x hx
  | cons l rs ih =>
    intro zones current hcne hcpos hrpos hsort hchain hlink hrat
    rw [List.foldl_cons]
    have hμpos : 0 < listMean current := listMean_pos hcne hcpos
    have hmaxl : listMax current ≤ l := List.rel_of_sorted_cons hsort l (by simp)
    have hμmax : listMean current ≤ listMax current := listMean_le_listMax hcne
    have hμl : listMean current ≤ l := le_trans hμmax hmaxl
    have habs : |l - listMean current| = l - listMean current :=
      abs_of_nonneg (by linarith)
    have hlpos : 0 < l := hrpos l (by simp)
    obtain ⟨c0, cs, hcur⟩ := List.exists_cons_of_ne_nil hcne
    by_cases h : |l - listMean current| / listMean current ≤ t / 100
    · have hstep : clusterStep t (zones, current) l = (zones, current ++ [l]) := by
        simp [clusterStep, h]
      rw [hstep]
      have hjoin : l - listMean current ≤ (t / 100) * listMean current := by
        rw [habs, div_le_iff hμpos] at h
        linarith
      obtain ⟨hμμ2, hμ2l⟩ := listMean_append_bounds hcne hμl
      have hmax2 : listMax (current ++ [l]) = l := by
        rw [hcur, listMax_append_singleton, ← hcur, max_eq_right hmaxl]
      have hmin2 : listMin (current ++ [l]) = listMin current := by
        rw [hcur, listMin_append_singleton, ← hcur]
        exact min_eq_left (le_trans (listMin_le_listMax hcne) hmaxl)
      refine ih zones (current ++ [l]) (by simp) ?_ ?_ ?_ hchain ?_ ?_
      · intro x hx
        rcases List.mem_append.mp hx with h1 | h1
        · exact hcpos x h1
        · rw [List.mem_singleton] at h1
          rw [h1]
          exact hlpos
      · exact fun x hx => hrpos x (List.mem_cons_of_mem _ hx)
      · rw [hmax2]
        exact List.Sorted.of_cons hsort
      · intro a ha
        rw [hmin2]
        exact hlink a ha
      · rw [hmax2]
        have h1 : l ≤ (1 + t / 100) * listMean current := by nlinarith [hjoin]
        have h2 : (1 + t / 100) * listMean current ≤
            (1 + t / 100) * listMean (current ++ [l]) := by
          have hcoef : (0 : ℚ) ≤ 1 + t / 100 := by nlinarith
          exact mul_le_mul_of_nonneg_left hμμ2 hcoef
        linarith
    · have hstep : clusterStep t (zones, current) l =
          (zones ++ [mkZone current], [l]) := by
        simp [clusterStep, h]
      rw [hstep]
      push_neg at h
      rw [habs] at h
      have hbreak : (t / 100) * listMean current < l - listMean current :=
        (lt_div_iff hμpos).mp h
      have hltmax : listMax current < l := by nlinarith [hrat, hbreak]
      refine ih (zones ++ [mkZone current]) [l] (by simp) ?_ ?_ ?_ ?_ ?_ ?_
      · intro x hx
        rw [List.mem_singleton] at hx
        rw [hx]
        exact hlpos
      · exact fun x hx => hrpos x (List.mem_cons_of_mem _ hx)
      · rw [listMax_singleton]
        exact List.Sorted.of_cons hsort
      · refine List.Chain'.append hchain (List.chain'_singleton _) ?_
        intro x hx y hy
        rw [List.head?_cons, Option.mem_some_iff] at hy
        rw [← hy]
        exact hlink x hx
      · intro a ha
        rw [List.getLast?_concat] at ha
        rw [← Option.some_inj.mp ha, listMin_singleton]
        exact hltmax
      · rw [listMax_singleton, listMean_singleton]
        nlinarith

/-- C10: for every list of positive levels and every tolerance, the zones of
one `_cluster_levels` call have pairwise disjoint extents — of any two
returned zones, the one with the smaller centroid has `max_price` strictly
below the other's `min_price`. -/
theorem C10_zone_extents_pairwise_disjoint (levels : List ℚ) (t : ℚ)
    (hpos : ∀ l ∈ levels, 0 < l) :
    ∀ z1 ∈ cluster_levels levels t, ∀ z2 ∈ cluster_levels levels t,
      z1.price < z2.price → z1.max_price < z2.min_price := by
  intro z1 hz1 z2 hz2 hlt
  obtain ⟨l0, rest, heq, hm1⟩ := mem_cluster_levels hz1
  obtain ⟨l0b, restb, heqb, hm2⟩ := mem_cluster_levels hz2
  rw [heq] at heqb
  injection heqb with hl0 hrest
  subst hl0
  subst hrest
  have hsorted : List.Sorted ratLE (l0 :: rest) := by
    rw [← heq]
    exact List.sorted_insertionSort ratLE levels
  have hallpos : ∀ x ∈ l0 :: rest, 0 < x := by
    intro x hx
    apply hpos x
    exact (List.perm_insertionSort ratLE levels).subset (heq ▸ hx)
  by_cases ht0 : 0 ≤ t
  · have hchain := clusterfold_chain_nonneg t ht0 rest [] [l0]
      (by simp)
      (by
        intro x hx
        rw [List.mem_singleton] at hx
        rw [hx]
        exact hallpos l0 (by simp))
      (fun x hx => hallpos x (List.mem_cons_of_mem _ hx))
      (by rw [listMax_singleton]; exact hsorted)
      List.chain'_nil
      (by intro a ha; simp at ha)
      (by
        rw [listMax_singleton, listMean_singleton]
        have hl0pos : 0 < l0 := hallpos l0 (by simp)
        nlinarith)
    obtain ⟨hfoldinv, hfoldne⟩ := clusterfold_inv t rest [] [l0] (by simp) (by simp)
    have hallinv : ∀ z ∈ (rest.foldl (clusterStep t) ([], [l0])).1 ++
        [mkZone (rest.foldl (clusterStep t) ([], [l0])).2], Zinv z := by
      intro z hz
      rcases List.mem_append.mp hz with h1 | h1
      · exact hfoldinv z h1
      · rw [List.mem_singleton] at h1
        rw [h1]
        exact mkZone_inv hfoldne
    have hpw := List.chain'_iff_pairwise.mp (chain'_zR hchain hallinv)
    exact pairwise_zR_price hpw z1 hm1 z2 hm2 hlt
  · push_neg at ht0
    have heqZ := clusterfold_neg t ht0 rest [] l0 (hallpos l0 (by simp))
      (fun x hx => hallpos x (List.mem_cons_of_mem _ hx))
    rw [heqZ, List.nil_append] at hm1 hm2
    have hpw := List.chain'_iff_pairwise.mp (chain_zR_map_sing hsorted)
    exact pairwise_zR_price hpw z1 hm1 z2 hm2 hlt

/-- Witness for C10 at a concrete input. -/
theorem C10_zone_extents_pairwise_disjoint_witness :
    (∀ l ∈ [(1 : ℚ), 2], 0 < l) ∧
    (⟨1, 1, 1, 1⟩ : ClusterZone) ∈ cluster_levels [(1 : ℚ), 2] (0.5 : ℚ) ∧
    (⟨2, 1, 2, 2⟩ : ClusterZone) ∈ cluster_levels [(1 : ℚ), 2] (0.5 : ℚ) ∧
    (⟨1, 1, 1, 1⟩ : ClusterZone).price < (⟨2, 1, 2, 2⟩ : ClusterZone).price ∧
    (⟨1, 1, 1, 1⟩ : ClusterZone).max_price < (⟨2, 1, 2, 2⟩ : ClusterZone).min_price :=
  ⟨by decide, by decide, by decide, by decide,
    C10_zone_extents_pairwise_disjoint [(1 : ℚ), 2] (0.5 : ℚ) (by decide)
      ⟨1, 1, 1, 1⟩ (by decide) ⟨2, 1, 2, 2⟩ (by decide) (by decide)⟩
